import Mathlib

set_option maxRecDepth 100000

/-!
Verification of the TypeScript client generator in `private/apigen/tsgen.go`
(the `apigen` part of the provided sources): shallow embedding of the
generator data model and string-producing functions, plus theorems about
the generated output.

Strings are modelled by Lean `String` (a wrapper around `List Char`); the Go
byte indices coincide with character indices on the ASCII text involved.
Braces and apostrophes inside string literals are written with the
escapes `\x7b`, `\x7d` and `\x27`; the denoted characters are the plain
brace and apostrophe characters.
-/

namespace Apigen

/-- A structural description of a type appearing in the schema (spec §3,
"TypeRef"): primitive, array-of, optional-of, an alias keyed by a declared
source name, or a named composite whose fields map a field name to a type
reference. -/
inductive TypeRef where
  | primitive (name : String)
  | array (elem : TypeRef)
  | optional (elem : TypeRef)
  | alias (name : String) (elem : TypeRef)
  | composite (name : String) (fields : List (String × TypeRef))
deriving Repr

/-! Structural (and therefore declared-name-sensitive) equality test on
type references, written by hand because instance derivation does not
support this nested inductive; `beqF` compares field lists. -/

mutual
def beqT : TypeRef → TypeRef → Bool
  | .primitive a, .primitive b => a == b
  | .array a, .array b => beqT a b
  | .optional a, .optional b => beqT a b
  | .alias a x, .alias b y => a == b && beqT x y
  | .composite a fa, .composite b fb => a == b && beqF fa fb
  | _, _ => false
def beqF : List (String × TypeRef) → List (String × TypeRef) → Bool
  | [], [] => true
  | (n, t) :: xs, (m, u) :: ys => n == m && beqT t u && beqF xs ys
  | _, _ => false
end

theorem beqT_refl_bounded :
    ∀ n : Nat, ∀ t : TypeRef, sizeOf t ≤ n → beqT t t = true := by
  intro n
  induction n with
  | zero =>
      intro t ht
      cases t <;> simp at ht
  | succ n ih =>
      intro t ht
      have hfields : ∀ fs : List (String × TypeRef), sizeOf fs ≤ n + 1 →
          beqF fs fs = true := by
        intro fs
        induction fs with
        | nil => intro _; rfl
        | cons hd tl ihl =>
            intro hsz
            obtain ⟨nm, t'⟩ := hd
            have e1 : sizeOf ((nm, t') : String × TypeRef) = 1 + sizeOf nm + sizeOf t' := rfl
            have e2 : sizeOf ((nm, t') :: tl) = 1 + sizeOf (nm, t') + sizeOf tl := rfl
            have h1 : sizeOf t' ≤ n := by omega
            have h2 : sizeOf tl ≤ n + 1 := by omega
            simp [beqF, ih t' h1, ihl h2]
      cases t
      next nm => simp [beqT]
      next e =>
        have : sizeOf e ≤ n := by simp at ht; omega
        simp [beqT, ih e this]
      next e =>
        have : sizeOf e ≤ n := by simp at ht; omega
        simp [beqT, ih e this]
      next nm e =>
        have : sizeOf e ≤ n := by simp at ht; omega
        simp [beqT, ih e this]
      next nm fs =>
        have : sizeOf fs ≤ n + 1 := by simp at ht; omega
        simp [beqT, hfields fs this]

theorem eq_of_beqT_bounded :
    ∀ n : Nat, ∀ a b : TypeRef, sizeOf a ≤ n → beqT a b = true → a = b := by
  intro n
  induction n with
  | zero =>
      intro a b ht _
      cases a <;> simp at ht
  | succ n ih =>
      intro a b ht hbeq
      have hfields : ∀ (fa fb : List (String × TypeRef)), sizeOf fa ≤ n + 1 →
          beqF fa fb = true → fa = fb := by
        intro fa
        induction fa with
        | nil =>
            intro fb _ hb
            cases fb with
            | nil => rfl
            | cons hd tl => exact Bool.noConfusion hb
        | cons hd tl ihl =>
            intro fb hsz hb
            obtain ⟨nm, t'⟩ := hd
            cases fb with
            | nil => exact Bool.noConfusion hb
            | cons hd' tl' =>
                obtain ⟨nm', u'⟩ := hd'
                simp only [beqF, Bool.and_eq_true, beq_iff_eq] at hb
                have e1 : sizeOf ((nm, t') : String × TypeRef) = 1 + sizeOf nm + sizeOf t' := rfl
                have e2 : sizeOf ((nm, t') :: tl) = 1 + sizeOf (nm, t') + sizeOf tl := rfl
                have h1 : sizeOf t' ≤ n := by omega
                have h2 : sizeOf tl ≤ n + 1 := by omega
                have := ih t' u' h1 hb.1.2
                have := ihl tl' h2 hb.2
                simp_all
      cases a
      next na =>
        cases b <;> (try exact Bool.noConfusion hbeq)
        simp only [beqT, beq_iff_eq] at hbeq
        rw [hbeq]
      next ea =>
        cases b <;> (try exact Bool.noConfusion hbeq)
        have hea : sizeOf ea ≤ n := by simp at ht; omega
        simp only [beqT] at hbeq
        rw [ih ea _ hea hbeq]
      next ea =>
        cases b <;> (try exact Bool.noConfusion hbeq)
        have hea : sizeOf ea ≤ n := by simp at ht; omega
        simp only [beqT] at hbeq
        rw [ih ea _ hea hbeq]
      next na ea =>
        cases b <;> (try exact Bool.noConfusion hbeq)
        have hea : sizeOf ea ≤ n := by simp at ht; omega
        simp only [beqT, Bool.and_eq_true, beq_iff_eq] at hbeq
        rw [hbeq.1, ih ea _ hea hbeq.2]
      next na fa =>
        cases b <;> (try exact Bool.noConfusion hbeq)
        have hfa : sizeOf fa ≤ n + 1 := by simp at ht; omega
        simp only [beqT, Bool.and_eq_true, beq_iff_eq] at hbeq
        rw [hbeq.1, hfields fa _ hfa hbeq.2]

instance : BEq TypeRef := ⟨beqT⟩

instance : LawfulBEq TypeRef where
  eq_of_beq h := eq_of_beqT_bounded (sizeOf _) _ _ (Nat.le_refl _) h
  rfl := beqT_refl_bounded (sizeOf _) _ (Nat.le_refl _)

instance : DecidableEq TypeRef := fun a b =>
  decidable_of_iff (beqT a b = true)
    ⟨fun h => eq_of_beqT_bounded (sizeOf a) a b (Nat.le_refl _) h,
     fun h => h ▸ beqT_refl_bounded (sizeOf a) a (Nat.le_refl _)⟩

/-- Modelled from the spec: the emitted target-language name of a type
reference (`TypescriptTypeName` lives in a source file that is not part of
the provided sources). -/
def TypescriptTypeName : TypeRef → String
  | .primitive name => name
  | .array elem => TypescriptTypeName elem ++ "[]"
  | .optional elem => TypescriptTypeName elem ++ " | null"
  | .alias name _ => name
  | .composite name _ => name

/-- Modelled from the spec: a parameter type that is a simple wrapper
around an elementary type is unwrapped to the elementary type
(`getElementaryType` lives in a source file that is not part of the
provided sources). -/
def getElementaryType : TypeRef → TypeRef
  | .alias _ elem => getElementaryType elem
  | .array elem => getElementaryType elem
  | .optional elem => getElementaryType elem
  | .primitive name => .primitive name
  | .composite name fields => .composite name fields

/-- A path or query parameter: name and declared type reference (spec §3). -/
structure Parameter where
  Name : String
  Typ : TypeRef
deriving DecidableEq, Repr

/-- One endpoint (the fields of the Go `fullEndpoint`, with its embedded
`Endpoint`, that the generator reads): display name, HTTP method verb,
path template, optional request and response types, and the ordered
parameter lists. -/
structure Endpoint where
  TypeScriptName : String
  Method : String
  Path : String
  Request : Option TypeRef
  Response : Option TypeRef
  PathParams : List Parameter
  QueryParams : List Parameter
deriving DecidableEq, Repr

/-- A named collection of endpoints sharing a URL prefix (spec §3). -/
structure EndpointGroup where
  Name : String
  Prefix : String
  endpoints : List Endpoint
deriving DecidableEq, Repr

/-- The whole schema handed to the generator. -/
structure API where
  Version : String
  EndpointGroups : List EndpointGroup
deriving DecidableEq, Repr

/-- Modelled from the spec: `namedType` (not among the provided sources)
resolves a parameter declared type reference; the spec specifies no
renaming, so it returns the declared type. -/
def Parameter.namedType (p : Parameter) (_ep : Endpoint) (_kind : String) : TypeRef :=
  p.Typ

/-- Modelled from the spec: the module-wide root path under which each
group prefix is composed (`API.endpointBasePath` is not among the provided
sources). -/
def API.endpointBasePath (a : API) : String :=
  "/api/" ++ a.Version

/-- Modelled from the spec: group names form part of the generated class
identifier; `capitalize` (not among the provided sources) upper-cases the
first character. -/
def capitalize (s : String) : String :=
  match s.data with
  | [] => s
  | c :: cs => String.mk (c.toUpper :: cs)

/-- Modelled from the spec (§3, §4.1): the type registry keeps the distinct
registered type references in first-registration order. -/
abbrev Types := List TypeRef

/-- Modelled from the spec: a fresh, empty registry (`NewTypes`). -/
def NewTypes : Types := []

/-- Modelled from the spec (§4.1): the chain of types resolved by one
registration — the element type of an array/optional/alias wrapper is
resolved and registered first (innermost element first), the type itself
last.  Composites and primitives resolve to themselves. -/
def elementChain : TypeRef → List TypeRef
  | .array elem => elementChain elem ++ [.array elem]
  | .optional elem => elementChain elem ++ [.optional elem]
  | .alias name elem => elementChain elem ++ [.alias name elem]
  | .primitive name => [.primitive name]
  | .composite name fields => [.composite name fields]

/-- Modelled from the spec (§4.1): one registration step — idempotent for
structurally identical type references; a new reference is appended,
preserving first-registration order. -/
def registerOne (ts : Types) (t : TypeRef) : Types :=
  if t ∈ ts then ts else ts ++ [t]

/-- Modelled from the spec (§4.1): `Register` first resolves and registers
the element types of wrappers, innermost first, then registers the type
itself.  Registration is idempotent for structurally identical,
identically named references. -/
def Types.Register (ts : Types) (t : TypeRef) : Types :=
  (elementChain t).foldl registerOne ts

/-- Modelled from the spec (§7): a SchemaConflictError arises when a newly
registered reference would emit the same identifier as a structurally
different reference already in the registry; the spec reports it as a
fatal generation error. -/
def schemaConflict (ts : Types) (t : TypeRef) : Bool :=
  ts.any (fun u => TypescriptTypeName u == TypescriptTypeName t && !(u == t))

/-- Concatenation of a list of strings, written by structural recursion so
that proofs can unfold it cleanly. -/
def strJoin : List String → String
  | [] => ""
  | s :: rest => s ++ strJoin rest

/-- Modelled from the spec: the declaration rendered for one registered
type (composites render one class with their fields; wrappers and
primitives need no standalone declaration beyond an alias line). -/
def typeDefinition : TypeRef → String
  | .composite name fields =>
      "\nexport class " ++ name ++ " \x7b\n"
        ++ strJoin (fields.map
            (fun fld => "\t" ++ fld.1 ++ ": " ++ TypescriptTypeName fld.2 ++ ";\n"))
        ++ "\x7d\n"
  | .alias name elem => "\nexport type " ++ name ++ " = " ++ TypescriptTypeName elem ++ ";\n"
  | _ => ""

/-- Modelled from the spec (§4.1): render all registered definitions, in
first-registration order. -/
def Types.GenerateTypescriptDefinitions (ts : Types) : String :=
  strJoin (ts.map typeDefinition)

/-! ### Embeddings of the Go `strings` functions used by the source -/

/-- the Go `strings.ToUpper` (ASCII), written over the character list so that
it evaluates in the kernel. -/
def goToUpper (s : String) : String :=
  String.mk (s.data.map Char.toUpper)

/-- the Go `strings.ToLower` (ASCII), written over the character list so that
it evaluates in the kernel. -/
def goToLower (s : String) : String :=
  String.mk (s.data.map Char.toLower)

/-- Helper for the Go strings.Trim: drop leading characters that belong
to the cutset. -/
def goTrimLeft (cutset : List Char) : List Char → List Char
  | [] => []
  | c :: cs => if c ∈ cutset then goTrimLeft cutset cs else c :: cs

/-- the Go `strings.Trim(s, cutset)`: remove all leading and trailing
characters contained in the cutset. -/
def goTrim (s cutset : String) : String :=
  String.mk ((goTrimLeft cutset.data ((goTrimLeft cutset.data s.data).reverse)).reverse)

/-- The fuelled core of the Go `strings.ReplaceAll`: scan left to right,
replace each non-overlapping occurrence of `pat`, and continue after the
replaced occurrence.  The fuel is an upper bound on the scanned length, so
the definition is structural and kernel-evaluable. -/
def goReplaceAllAux (pat rep : List Char) : Nat → List Char → List Char
  | _, [] => []
  | 0, s => s
  | fuel + 1, c :: cs =>
    if pat.isPrefixOf (c :: cs) then
      rep ++ goReplaceAllAux pat rep fuel ((c :: cs).drop pat.length)
    else
      c :: goReplaceAllAux pat rep fuel cs

/-- the Go `strings.ReplaceAll(s, pat, rep)` for a non-empty pattern. -/
def goReplaceAll (s pat rep : String) : String :=
  if pat = "" then s
  else String.mk (goReplaceAllAux pat.data rep.data s.data.length s.data)

/-- Decidable substring test (the Go `strings.Contains`), used to state
properties of the generated text. -/
def containsSubList (sub : List Char) : List Char → Bool
  | [] => sub.isEmpty
  | c :: cs => sub.isPrefixOf (c :: cs) || containsSubList sub cs

/-- The test containsSub s sub holds when `sub` occurs contiguously in `s`. -/
def containsSub (s sub : String) : Bool :=
  containsSubList sub.data s.data

/-! ### The generator state (`tsGenFile`) and its methods -/

/-- the Go `tsGenFile`: accumulated output text, destination path, schema,
and the type registry. -/
structure tsGenFile where
  result : String
  path : String
  api : API
  types : Types

/-- The Go constructor newTSGenFile. -/
def newTSGenFile (filepath : String) (api : API) : tsGenFile :=
  { result := "", path := filepath, api := api, types := NewTypes }

/-- The Go method tsGenFile.pf: append one already-formatted line plus a newline to the
accumulated output (the `fmt.Sprintf` formatting is inlined at each call
site below). -/
def tsGenFile.pf (f : tsGenFile) (line : String) : tsGenFile :=
  { f with result := f.result ++ line ++ "\n" }

/-- The Go method tsGenFile.write: the content written to the destination file —
the accumulated output with every tab replaced by four spaces.  (The
`os.WriteFile` call itself is an external collaborator; we model the
written content.) -/
def tsGenFile.write (f : tsGenFile) : String :=
  goReplaceAll f.result "\t" "    "

/-- The Go method tsGenFile.getArgsAndPath.  The receiver of the Go method is unused, so
the embedding is a plain function of the endpoint.  The single Go loop
over `method.PathParams` updates `funcArgs` and `path` independently, so
it is embedded as two folds. -/
def getArgsAndPath (method : Endpoint) : String × String :=
  let path := method.Path
  let path :=
    match path.data.findIdx? (fun c => c = '\x7b') with
    | some i => String.mk (method.Path.data.take i)
    | none => path
  let path := "$\x7bthis.ROOT_PATH\x7d" ++ path
  let funcArgs :=
    match method.Request with
    | some t => "request: " ++ TypescriptTypeName t ++ ", "
    | none => ""
  let funcArgs := method.PathParams.foldl
    (fun acc p => acc ++ p.Name ++ ": " ++ TypescriptTypeName (p.namedType method "path") ++ ", ")
    funcArgs
  let path := method.PathParams.foldl
    (fun acc p => acc ++ "/$\x7b" ++ p.Name ++ "\x7d") path
  let funcArgs := method.QueryParams.foldl
    (fun acc p => acc ++ p.Name ++ ": " ++ TypescriptTypeName (p.namedType method "query") ++ ", ")
    funcArgs
  let path := goReplaceAll path "//" "/"
  (goTrim funcArgs ", ", path)

/-- The returnType local of the loop body of createAPIClient. -/
def returnType (method : Endpoint) : String :=
  match method.Response with
  | none => "void"
  | some t => TypescriptTypeName t

/-- The returnStmt local of the loop body of createAPIClient. -/
def returnStmt (method : Endpoint) : String :=
  (match method.Response with
   | none => "return"
   | some t => "return response.json().then((body) => body as " ++ TypescriptTypeName t ++ ")")
  ++ ";"

/-- The lines building fullPath in the loop body of createAPIClient: a URL
builder plus one `searchParams.set` per query parameter when query
parameters exist, a single template-literal assignment otherwise. -/
def fullPathLines (method : Endpoint) (path : String) : List String :=
  if method.QueryParams.length > 0 then
    ["\t\tconst u = new URL(`" ++ path ++ "`);"]
      ++ method.QueryParams.map
          (fun p => "\t\tu.searchParams.set(\x27" ++ p.Name ++ "\x27, " ++ p.Name ++ ");")
      ++ ["\t\tconst fullPath = u.toString();"]
  else
    ["\t\tconst fullPath = `" ++ path ++ "`;"]

/-- The HTTP dispatch line of the loop body of createAPIClient. -/
def dispatchLine (method : Endpoint) : String :=
  match method.Request with
  | some _ =>
      "\t\tconst response = await this.http." ++ goToLower method.Method
        ++ "(fullPath, JSON.stringify(request));"
  | none =>
      "\t\tconst response = await this.http." ++ goToLower method.Method ++ "(fullPath);"

/-- The lines emitted for one endpoint by the loop body of
`createAPIClient`, in `pf`-call order. -/
def methodLines (method : Endpoint) : List String :=
  let ap := getArgsAndPath method
  [""]
    ++ ["\tpublic async " ++ method.TypeScriptName ++ "(" ++ ap.1 ++ "): Promise<"
          ++ returnType method ++ "> \x7b"]
    ++ fullPathLines method ap.2
    ++ [dispatchLine method]
    ++ ["\t\tif (response.ok) \x7b",
        "\t\t\t" ++ returnStmt method,
        "\t\t\x7d",
        "\t\tconst err = await response.json();",
        "\t\tthrow new Error(err.error);",
        "\t\x7d"]

/-- All lines emitted by one `createAPIClient` call, in `pf`-call order. -/
def classLines (a : API) (group : EndpointGroup) : List String :=
  ["\nexport class " ++ capitalize group.Prefix ++ "HttpApi" ++ goToUpper a.Version ++ " \x7b",
   "\tprivate readonly http: HttpClient = new HttpClient();",
   "\tprivate readonly ROOT_PATH: string = \x27" ++ a.endpointBasePath ++ "/"
     ++ group.Prefix ++ "\x27;"]
    ++ (group.endpoints.map methodLines).flatten
    ++ ["\x7d"]

/-- The text appended to the output by one `createAPIClient` call. -/
def classText (a : API) (group : EndpointGroup) : String :=
  strJoin ((classLines a group).map (fun l => l ++ "\n"))

/-- The Go method tsGenFile.createAPIClient: append one client class for a group. -/
def tsGenFile.createAPIClient (f : tsGenFile) (group : EndpointGroup) : tsGenFile :=
  { f with result := f.result ++ classText f.api group }

/-- The Register calls of `registerTypes` for one endpoint: the request
type if present, the response type if present, and — when query parameters
exist — the elementary type of each query parameter named type. -/
def registerMethodTypes (method : Endpoint) (types : Types) : Types :=
  let types :=
    match method.Request with
    | some t => types.Register t
    | none => types
  let types :=
    match method.Response with
    | some t => types.Register t
    | none => types
  if method.QueryParams.length > 0 then
    method.QueryParams.foldl
      (fun ts p => ts.Register (getElementaryType (p.namedType method "query"))) types
  else types

/-- The registration sweep of `tsGenFile.registerTypes` as a pure function
of the schema and the starting registry. -/
def registerAll (a : API) (types : Types) : Types :=
  a.EndpointGroups.foldl
    (fun ts g => g.endpoints.foldl (fun ts m => registerMethodTypes m ts) ts) types

/-- The Go method tsGenFile.registerTypes. -/
def tsGenFile.registerTypes (f : tsGenFile) : tsGenFile :=
  { f with types := registerAll f.api f.types }

/-- The Go method tsGenFile.generateTS: header lines, registration sweep, rendered type
definitions, then one client class per endpoint group. -/
def tsGenFile.generateTS (f : tsGenFile) : tsGenFile :=
  let f := f.pf "// AUTOGENERATED BY private/apigen"
  let f := f.pf "// DO NOT EDIT."
  let f := f.pf ""
  let f := f.pf "import \x7b HttpClient \x7d from \x27@/utils/httpClient\x27;"
  let f := f.registerTypes
  let f := { f with result := f.result ++ Types.GenerateTypescriptDefinitions f.types }
  f.api.EndpointGroups.foldl tsGenFile.createAPIClient f

/-- The Go method API.MustWriteTS: the content written for a schema (generation
followed by the tab-expanding write). -/
def API.MustWriteTS (a : API) (path : String) : String :=
  tsGenFile.write (tsGenFile.generateTS (newTSGenFile path a))

/-! ### Statement-side definitions

These definitions restate, in structured form, what the claims say about
the emitted signature; they are compared against the source embedding. -/

/-- The parameter list the claims describe: the request-body parameter
first (when present), then the path parameters in list order, then the
query parameters in declaration order, each rendered `name: type`. -/
def argList (method : Endpoint) : List String :=
  (match method.Request with
   | some t => ["request: " ++ TypescriptTypeName t]
   | none => [])
  ++ method.PathParams.map
      (fun p => p.Name ++ ": " ++ TypescriptTypeName (p.namedType method "path"))
  ++ method.QueryParams.map
      (fun p => p.Name ++ ": " ++ TypescriptTypeName (p.namedType method "query"))

/-- Comma-separated rendering of a parameter list. -/
def joinArgs : List String → String
  | [] => ""
  | [a] => a
  | a :: b :: rest => a ++ ", " ++ joinArgs (b :: rest)

/-- The characters of the cutset of the strings.Trim call in
getArgsAndPath: a comma and a space. -/
def cutChars : List Char := (", " : String).data

/-- A rendered argument is sane when it is nonempty and neither starts nor
ends with a comma or a space (every TypeScript identifier/type rendering
satisfies this). -/
def saneArg (s : String) : Bool :=
  match s.data, s.data.reverse with
  | c :: _, d :: _ => !(cutChars.contains c) && !(cutChars.contains d)
  | _, _ => false

/-- Reachability through wrapper layers alone: a type, the element of an
array/optional/alias wrapper, transitively (spec §4.1). -/
inductive WrapperReach : TypeRef → TypeRef → Prop
  | refl (t : TypeRef) : WrapperReach t t
  | ofArray (t u : TypeRef) : WrapperReach t u → WrapperReach (.array t) u
  | ofOptional (t u : TypeRef) : WrapperReach t u → WrapperReach (.optional t) u
  | ofAlias (name : String) (t u : TypeRef) :
      WrapperReach t u → WrapperReach (.alias name t) u

/-- Full reachability through the type structure (spec §2-3): a type
itself, wrapper elements, and the types of composite fields,
transitively. -/
inductive Reachable : TypeRef → TypeRef → Prop
  | refl (t : TypeRef) : Reachable t t
  | ofArray (t u : TypeRef) : Reachable t u → Reachable (.array t) u
  | ofOptional (t u : TypeRef) : Reachable t u → Reachable (.optional t) u
  | ofAlias (name : String) (t u : TypeRef) :
      Reachable t u → Reachable (.alias name t) u
  | ofField (name fname : String) (fields : List (String × TypeRef)) (t u : TypeRef) :
      (fname, t) ∈ fields → Reachable t u → Reachable (.composite name fields) u

/-! ### Concrete schemas used by counterexamples and witnesses -/

/-- The endpoint of the spec §8 path-expansion example: template
`/projects/(id)/buckets` with one path parameter `id`. -/
def exProjects : Endpoint :=
  { TypeScriptName := "getBuckets", Method := "GET",
    Path := "/projects/\x7bid\x7d/buckets",
    Request := none, Response := none,
    PathParams := [{ Name := "id", Typ := .primitive "string" }],
    QueryParams := [] }

/-- An endpoint with a request body, one path parameter and one query
parameter, used to witness the signature-shape theorem. -/
def exFull : Endpoint :=
  { TypeScriptName := "updateThing", Method := "PUT",
    Path := "/things/\x7bid\x7d",
    Request := some (.composite "Req" [("a", .primitive "string")]),
    Response := some (.array (.composite "Resp" [])),
    PathParams := [{ Name := "id", Typ := .primitive "string" }],
    QueryParams := [{ Name := "cursor", Typ := .alias "Cursor" (.primitive "string") }] }

/-- A schema whose only endpoint carries nothing but a path parameter of a
composite type; the registration sweep registers nothing for it. -/
def apiPathOnly : API :=
  { Version := "v0",
    EndpointGroups :=
      [{ Name := "widgets", Prefix := "widgets",
         endpoints :=
           [{ TypeScriptName := "getWidget", Method := "GET",
              Path := "/widgets/\x7bid\x7d",
              Request := none, Response := none,
              PathParams := [{ Name := "id", Typ := .composite "Widget" [] }],
              QueryParams := [] }] }] }

/-- The group of the full coverage witness schema. -/
def groupFull : EndpointGroup :=
  { Name := "things", Prefix := "things", endpoints := [exFull] }

/-- The schema of the full coverage witness. -/
def apiFull : API := { Version := "v0", EndpointGroups := [groupFull] }

/-- The response type of the round-trip scenario. -/
def UserType : TypeRef := .composite "User" [("name", .primitive "string")]

/-- The endpoint of the round-trip scenario of spec §8. -/
def exGetUser : Endpoint :=
  { TypeScriptName := "getUser", Method := "GET", Path := "/users/\x7bid\x7d",
    Request := none, Response := some UserType,
    PathParams := [{ Name := "id", Typ := .primitive "string" }],
    QueryParams := [] }

/-- The group of the round-trip scenario. -/
def groupUsers : EndpointGroup :=
  { Name := "users", Prefix := "users", endpoints := [exGetUser] }

/-- The schema of the round-trip scenario. -/
def apiUsers : API := { Version := "v0", EndpointGroups := [groupUsers] }

/-- A mismatched endpoint: the template has a placeholder but the endpoint
declares no path parameter. -/
def exOrphanPlaceholder : Endpoint :=
  { TypeScriptName := "getThing", Method := "GET", Path := "/users/\x7bid\x7d",
    Request := none, Response := none, PathParams := [], QueryParams := [] }

/-- A mismatched endpoint: a path parameter with no placeholder in the
template. -/
def exOrphanParam : Endpoint :=
  { TypeScriptName := "getOther", Method := "GET", Path := "/users",
    Request := none, Response := none,
    PathParams := [{ Name := "id", Typ := .primitive "string" }],
    QueryParams := [] }

/-- A schema containing both mismatched endpoints. -/
def apiMismatch : API :=
  { Version := "v0",
    EndpointGroups :=
      [{ Name := "users", Prefix := "users",
         endpoints := [exOrphanPlaceholder, exOrphanParam] }] }

/-- A composite type used to exercise registry idempotence. -/
def WidgetType : TypeRef := .composite "Widget" [("id", .primitive "string")]

/-- A composite type reachable only through a composite field. -/
def BType : TypeRef := .composite "B" []

/-- A composite response type with one field of type `B`. -/
def AType : TypeRef := .composite "A" [("b", BType)]

/-- A schema whose only endpoint responds with `A`, whose field type `B`
is reachable from the response type only through a composite field. -/
def apiFieldReach : API :=
  { Version := "v0",
    EndpointGroups :=
      [{ Name := "a", Prefix := "a",
         endpoints :=
           [{ TypeScriptName := "getA", Method := "GET", Path := "/a",
              Request := none, Response := some AType,
              PathParams := [], QueryParams := [] }] }] }

/-! ### General lemmas -/

theorem foldl_append_str {α : Type} (g : α → String) :
    ∀ (l : List α) (init : String),
      l.foldl (fun acc x => acc ++ g x) init = init ++ strJoin (l.map g) := by
  intro l
  induction l with
  | nil => intro init; simp [strJoin]
  | cons x xs ih =>
      intro init
      simp only [List.foldl_cons, List.map_cons, strJoin, ih, String.append_assoc]

theorem strJoin_append (l₁ l₂ : List String) :
    strJoin (l₁ ++ l₂) = strJoin l₁ ++ strJoin l₂ := by
  induction l₁ with
  | nil => simp [strJoin]
  | cons s rest ih => simp [strJoin, ih, String.append_assoc]

theorem foldl_preserve {α β : Type} {P : β → Prop} (step : β → α → β)
    (hstep : ∀ s x, P s → P (step s x)) :
    ∀ (l : List α) (init : β), P init → P (l.foldl step init) := by
  intro l
  induction l with
  | nil => intro init h; exact h
  | cons x xs ih => intro init h; exact ih (step init x) (hstep init x h)

theorem foldl_attain {α β : Type} {P : β → Prop} (step : β → α → β) (x : α)
    (hstep : ∀ s y, P s → P (step s y)) (hx : ∀ s, P (step s x)) :
    ∀ (l : List α) (init : β), x ∈ l → P (l.foldl step init) := by
  intro l
  induction l with
  | nil => intro init h; cases h
  | cons y ys ih =>
      intro init h
      rcases List.mem_cons.mp h with h | h
      · subst h
        exact foldl_preserve step hstep ys (step init x) (hx init)
      · exact ih (step init y) h

/-! ### Registry lemmas -/

theorem mem_registerOne_self (ts : Types) (t : TypeRef) : t ∈ registerOne ts t := by
  unfold registerOne
  split
  · assumption
  · exact List.mem_append_right _ (List.mem_singleton.mpr rfl)

theorem mem_registerOne_mono (ts : Types) (x t : TypeRef) (h : x ∈ ts) :
    x ∈ registerOne ts t := by
  unfold registerOne
  split
  · exact h
  · exact List.mem_append_left _ h

theorem self_mem_elementChain (t : TypeRef) : t ∈ elementChain t := by
  cases t
  next nm => exact List.mem_singleton.mpr rfl
  next e => exact List.mem_append_right _ (List.mem_singleton.mpr rfl)
  next e => exact List.mem_append_right _ (List.mem_singleton.mpr rfl)
  next nm e => exact List.mem_append_right _ (List.mem_singleton.mpr rfl)
  next nm fs => exact List.mem_singleton.mpr rfl

theorem mem_foldl_registerOne (l : List TypeRef) (init : Types) (x : TypeRef)
    (hx : x ∈ l) : x ∈ l.foldl registerOne init :=
  foldl_attain registerOne x
    (fun s y hs => mem_registerOne_mono s x y hs)
    (fun s => mem_registerOne_self s x) l init hx

theorem mem_foldl_registerOne_mono (l : List TypeRef) (init : Types) (x : TypeRef)
    (h : x ∈ init) : x ∈ l.foldl registerOne init :=
  foldl_preserve registerOne (fun s y hs => mem_registerOne_mono s x y hs) l init h

theorem mem_Register_self (ts : Types) (t : TypeRef) : t ∈ ts.Register t :=
  mem_foldl_registerOne _ ts t (self_mem_elementChain t)

theorem mem_Register_mono (ts : Types) (t u : TypeRef) (h : t ∈ ts) :
    t ∈ ts.Register u :=
  mem_foldl_registerOne_mono _ ts t h

theorem mem_elementChain_of_wrapperReach {t u : TypeRef} (h : WrapperReach t u) :
    u ∈ elementChain t := by
  induction h with
  | refl t => exact self_mem_elementChain t
  | ofArray t u _ ih => exact List.mem_append_left _ ih
  | ofOptional t u _ ih => exact List.mem_append_left _ ih
  | ofAlias name t u _ ih => exact List.mem_append_left _ ih

theorem mem_Register_wrapperReach (ts : Types) {t u : TypeRef}
    (h : WrapperReach t u) : u ∈ ts.Register t :=
  mem_foldl_registerOne _ ts u (mem_elementChain_of_wrapperReach h)

theorem foldl_registerOne_id :
    ∀ (l : List TypeRef) (ts : Types), (∀ x ∈ l, x ∈ ts) →
      l.foldl registerOne ts = ts := by
  intro l
  induction l with
  | nil => intro ts _; rfl
  | cons x xs ih =>
      intro ts h
      have hx : registerOne ts x = ts := by
        unfold registerOne
        rw [if_pos (h x (List.mem_cons_self x xs))]
      rw [List.foldl_cons, hx]
      exact ih ts (fun y hy => h y (List.mem_cons_of_mem x hy))

theorem mem_registerMethodTypes_mono (m : Endpoint) (ts : Types) (t : TypeRef)
    (h : t ∈ ts) : t ∈ registerMethodTypes m ts := by
  unfold registerMethodTypes
  dsimp only
  have step1 : t ∈ (match m.Request with
      | some u => ts.Register u
      | none => ts) := by
    cases m.Request with
    | none => exact h
    | some u => exact mem_Register_mono ts t u h
  have step2 : t ∈ (match m.Response with
      | some u => (match m.Request with
          | some v => ts.Register v
          | none => ts).Register u
      | none => (match m.Request with
          | some v => ts.Register v
          | none => ts)) := by
    cases m.Response with
    | none => exact step1
    | some u => exact mem_Register_mono _ t u step1
  split
  · exact foldl_preserve _
      (fun s p hp => mem_Register_mono s t (getElementaryType (p.namedType m "query")) hp)
      m.QueryParams _ step2
  · exact step2

theorem mem_registerMethodTypes_request (m : Endpoint) (ts : Types) (t u : TypeRef)
    (h : m.Request = some t) (hw : WrapperReach t u) : u ∈ registerMethodTypes m ts := by
  unfold registerMethodTypes
  dsimp only
  rw [h]
  have step1 : u ∈ ts.Register t := mem_Register_wrapperReach ts hw
  have step2 : u ∈ (match m.Response with
      | some v => (ts.Register t).Register v
      | none => ts.Register t) := by
    cases m.Response with
    | none => exact step1
    | some v => exact mem_Register_mono _ u v step1
  split
  · exact foldl_preserve _
      (fun s p hp => mem_Register_mono s u (getElementaryType (p.namedType m "query")) hp)
      m.QueryParams _ step2
  · exact step2

theorem mem_registerMethodTypes_response (m : Endpoint) (ts : Types) (t u : TypeRef)
    (h : m.Response = some t) (hw : WrapperReach t u) : u ∈ registerMethodTypes m ts := by
  unfold registerMethodTypes
  dsimp only
  rw [h]
  have step2 : u ∈ Types.Register (match m.Request with
      | some v => ts.Register v
      | none => ts) t := mem_Register_wrapperReach _ hw
  split
  · exact foldl_preserve _
      (fun s p hp => mem_Register_mono s u (getElementaryType (p.namedType m "query")) hp)
      m.QueryParams _ step2
  · exact step2

theorem mem_registerMethodTypes_query (m : Endpoint) (ts : Types) (p : Parameter)
    (u : TypeRef) (hp : p ∈ m.QueryParams)
    (hw : WrapperReach (getElementaryType (p.namedType m "query")) u) :
    u ∈ registerMethodTypes m ts := by
  unfold registerMethodTypes
  dsimp only
  have hlen : m.QueryParams.length > 0 :=
    List.length_pos.mpr (List.ne_nil_of_mem hp)
  rw [if_pos hlen]
  exact foldl_attain
    (fun (s : Types) (q : Parameter) => s.Register (getElementaryType (q.namedType m "query"))) p
    (fun s q hq => mem_Register_mono s _ (getElementaryType (q.namedType m "query")) hq)
    (fun s => mem_Register_wrapperReach s hw)
    m.QueryParams _ hp

theorem mem_registerAll (a : API) (ts : Types) (g : EndpointGroup) (m : Endpoint)
    (t : TypeRef) (hg : g ∈ a.EndpointGroups) (hm : m ∈ g.endpoints)
    (ht : ∀ s : Types, t ∈ registerMethodTypes m s) :
    t ∈ registerAll a ts := by
  unfold registerAll
  exact foldl_attain
    (fun (s : Types) (g' : EndpointGroup) =>
      g'.endpoints.foldl (fun ts m => registerMethodTypes m ts) s) g
    (fun s g' hs =>
      foldl_preserve _ (fun s' m' hs' => mem_registerMethodTypes_mono m' s' t hs')
        g'.endpoints s hs)
    (fun s =>
      foldl_attain (fun (s' : Types) (m' : Endpoint) => registerMethodTypes m' s') m
        (fun s' m' hs' => mem_registerMethodTypes_mono m' s' t hs')
        (fun s' => ht s') g.endpoints s hm)
    a.EndpointGroups ts hg

/-! ### Claim C1: path expansion -/

/-- C1 counterexample: for the endpoint with template `/projects/(id)/buckets`
and one PathParam `id`, the expanded path expression is
`$(this.ROOT_PATH)/projects/$(id)`: it DOES contain the literal substring
`(id)` (inside the interpolation), and it does NOT preserve the rest of the
template (the trailing `/buckets` is dropped), so the claim as stated is
false.  (Braces are written here as parentheses to keep this comment plain.) -/
theorem expand_C1_counterexample :
    (getArgsAndPath exProjects).2 = "$\x7bthis.ROOT_PATH\x7d/projects/$\x7bid\x7d"
    ∧ containsSub (getArgsAndPath exProjects).2 "\x7bid\x7d" = true
    ∧ containsSub (getArgsAndPath exProjects).2 "/buckets" = false := by
  refine ⟨by decide, by decide, by decide⟩

/-- C1 (amended): the expander truncates the template at the first
placeholder (dropping the remainder of the template), appends one
interpolation `/$(name)` per path parameter in declaration order, and
collapses `//` to `/`; for `/projects/(id)/buckets` with PathParam `id` the
expanded path expression is `$(this.ROOT_PATH)/projects/$(id)`, which
contains no `//` and contains the placeholder text only inside the
interpolation `$(id)`. -/
theorem expand_C1_amended :
    (getArgsAndPath exProjects).2 = "$\x7bthis.ROOT_PATH\x7d/projects/$\x7bid\x7d"
    ∧ containsSub (getArgsAndPath exProjects).2 "//" = false
    ∧ containsSub (getArgsAndPath exProjects).2 "$\x7bid\x7d" = true := by
  refine ⟨by decide, by decide, by decide⟩

/-! ### Claim C3: the registration sweep -/

/-- C3 counterexample: the registration sweep does not cover everything
reachable from request, response and parameters.  First, a schema whose
only endpoint has a path parameter of composite type `Widget` (and no
request, response or query parameters) registers nothing at all —
path-parameter types are never registered.  Second, on a schema whose
response type `A` has one field of composite type `B`, the type `B` is
reachable from the response type but is not registered: registration
stops at composite boundaries. -/
theorem registerTypes_C3_counterexample :
    (((newTSGenFile "f.ts" apiPathOnly).registerTypes).types = []
      ∧ (TypeRef.composite "Widget" []) ∉
          ((newTSGenFile "f.ts" apiPathOnly).registerTypes).types)
    ∧ (Reachable AType BType
      ∧ ((newTSGenFile "f.ts" apiFieldReach).registerTypes).types = [AType]
      ∧ BType ∉ ((newTSGenFile "f.ts" apiFieldReach).registerTypes).types) := by
  refine ⟨⟨by decide, by decide⟩, ?_, by decide, by decide⟩
  exact Reachable.ofField "A" "b" [("b", BType)] BType BType
    (List.mem_singleton.mpr rfl) (Reachable.refl BType)

/-- C3 (amended): the registration sweep registers, for every endpoint of
every group, every type reachable through wrapper layers (array, optional,
alias elements) from the request type, from the response type, and from
the elementary type of every query parameter (each query parameter being
unwrapped to its elementary type before registration); types reachable
only through composite fields are not registered, and path parameters are
not registered at all. -/
theorem registerTypes_C3_amended (f : tsGenFile) (g : EndpointGroup) (m : Endpoint)
    (hg : g ∈ f.api.EndpointGroups) (hm : m ∈ g.endpoints) :
    (∀ t u, m.Request = some t → WrapperReach t u → u ∈ (f.registerTypes).types)
    ∧ (∀ t u, m.Response = some t → WrapperReach t u → u ∈ (f.registerTypes).types)
    ∧ (∀ p ∈ m.QueryParams, ∀ u,
        WrapperReach (getElementaryType (p.namedType m "query")) u →
        u ∈ (f.registerTypes).types) := by
  refine ⟨?_, ?_, ?_⟩
  · intro t u ht hw
    exact mem_registerAll f.api f.types g m u hg hm
      (fun s => mem_registerMethodTypes_request m s t u ht hw)
  · intro t u ht hw
    exact mem_registerAll f.api f.types g m u hg hm
      (fun s => mem_registerMethodTypes_response m s t u ht hw)
  · intro p hp u hw
    exact mem_registerAll f.api f.types g m u hg hm
      (fun s => mem_registerMethodTypes_query m s p u hp hw)

/-- C3 witness: on the concrete schema `apiFull`, the request type, the
array response type together with its element type (the wrapper closure)
and the unwrapped elementary type of the query parameter are all
registered. -/
theorem registerTypes_C3_witness :
    (TypeRef.composite "Req" [("a", TypeRef.primitive "string")]) ∈
        ((newTSGenFile "f.ts" apiFull).registerTypes).types
    ∧ (TypeRef.array (TypeRef.composite "Resp" [])) ∈
        ((newTSGenFile "f.ts" apiFull).registerTypes).types
    ∧ (TypeRef.composite "Resp" []) ∈
        ((newTSGenFile "f.ts" apiFull).registerTypes).types
    ∧ (TypeRef.primitive "string") ∈
        ((newTSGenFile "f.ts" apiFull).registerTypes).types := by
  have h := registerTypes_C3_amended (newTSGenFile "f.ts" apiFull) groupFull exFull
    (by decide) (by decide)
  exact ⟨h.1 _ _ rfl (WrapperReach.refl _),
    h.2.1 _ _ rfl (WrapperReach.refl _),
    h.2.1 _ _ rfl (WrapperReach.ofArray _ _ (WrapperReach.refl _)),
    h.2.2 { Name := "cursor", Typ := .alias "Cursor" (.primitive "string") } (by decide)
      _ (WrapperReach.refl _)⟩

/-! ### Claim C7: the round-trip scenario -/

/-- C7 counterexample: for the round-trip scenario (group `users`, endpoint
GET `/users/(id)` with PathParam `id` and Response `User`), the emitted
method does NOT build the request path `$(ROOT_PATH)/$(id)`: the emitted
full-path line interpolates `$(this.ROOT_PATH)/users/$(id)` — it keeps the
`/users` segment of the template and refers to `this.ROOT_PATH`. -/
theorem roundtrip_C7_counterexample :
    containsSub (classText apiUsers groupUsers) "$\x7bROOT_PATH\x7d/$\x7bid\x7d" = false
    ∧ (getArgsAndPath exGetUser).2 ≠ "$\x7bROOT_PATH\x7d/$\x7bid\x7d"
    ∧ ("\t\tconst fullPath = `$\x7bthis.ROOT_PATH\x7d/users/$\x7bid\x7d`;")
        ∈ methodLines exGetUser := by
  refine ⟨by decide, by decide, by decide⟩

/-- C7 (amended): the round-trip scenario emits a class whose base-path
constant is the module root composed with the group prefix
(`/api/v0/users` = `endpointBasePath ++ /users`), whose method builds the
request path `$(this.ROOT_PATH)/users/$(id)`, awaits a GET dispatch, on
success returns the parsed `User`, and on failure throws an error carrying
the server error message. -/
theorem roundtrip_C7_amended :
    ("\tprivate readonly ROOT_PATH: string = \x27"
        ++ apiUsers.endpointBasePath ++ "/users\x27;") ∈ classLines apiUsers groupUsers
    ∧ apiUsers.endpointBasePath ++ "/users" = "/api/v0/users"
    ∧ ("\t\tconst fullPath = `$\x7bthis.ROOT_PATH\x7d/users/$\x7bid\x7d`;")
        ∈ methodLines exGetUser
    ∧ ("\t\tconst response = await this.http.get(fullPath);") ∈ methodLines exGetUser
    ∧ ("\t\t\treturn response.json().then((body) => body as User);")
        ∈ methodLines exGetUser
    ∧ ("\t\tthrow new Error(err.error);") ∈ methodLines exGetUser := by
  refine ⟨by decide, by decide, by decide, by decide, by decide, by decide⟩

/-! ### Claim C8: mismatched templates -/

/-- C8 counterexample: expansion performs no placeholder/parameter
matching and raises no error.  On a schema with a placeholder that has no
matching PathParam (and another endpoint with a PathParam that has no
placeholder), generation completes and produces non-empty output, so the
claim that a TemplateMismatchError aborts the run with no output is false. -/
theorem mismatch_C8_counterexample :
    (getArgsAndPath exOrphanPlaceholder).2 = "$\x7bthis.ROOT_PATH\x7d/users/"
    ∧ (tsGenFile.generateTS (newTSGenFile "f.ts" apiMismatch)).result ≠ "" := by
  refine ⟨by decide, by decide⟩

/-- C8 (amended): there is no mismatch detection: a placeholder with no
matching PathParam is silently dropped (the template is truncated at the
first brace), a PathParam with no placeholder is appended as an
interpolation anyway, and generation completes, producing output for such
schemas. -/
theorem mismatch_C8_amended :
    (getArgsAndPath exOrphanPlaceholder).2 = "$\x7bthis.ROOT_PATH\x7d/users/"
    ∧ (getArgsAndPath exOrphanParam).2 = "$\x7bthis.ROOT_PATH\x7d/users/$\x7bid\x7d"
    ∧ (tsGenFile.generateTS (newTSGenFile "f.ts" apiMismatch)).result ≠ "" := by
  refine ⟨by decide, by decide, by decide⟩

/-! ### Claim C9: registry idempotence -/

/-- C9: registration is idempotent — re-registering a structurally
identical, identically named type reference leaves the registry unchanged,
and registering a composite type twice yields exactly one registry entry
and exactly one rendered type definition in the output. -/
theorem Register_C9_idempotent :
    (∀ (ts : Types) (t : TypeRef), (ts.Register t).Register t = ts.Register t)
    ∧ Types.Register (Types.Register NewTypes WidgetType) WidgetType = [WidgetType]
    ∧ Types.GenerateTypescriptDefinitions
        (Types.Register (Types.Register NewTypes WidgetType) WidgetType)
      = typeDefinition WidgetType := by
  refine ⟨?_, by decide, by decide⟩
  intro ts t
  show (elementChain t).foldl registerOne (ts.Register t) = ts.Register t
  apply foldl_registerOne_id
  intro x hx
  exact mem_foldl_registerOne _ ts x hx

/-! ### Claim C5: success and failure branches -/

/-- C5: every emitted method body contains the guarded success branch and
the failure branch — the `response.ok` guard, the return statement, the
error-payload deserialization and the throw carrying the error message —
regardless of whether Request or Response types are present; the return
statement returns the deserialized body when a Response type exists and
completes without a value otherwise. -/
theorem methodBody_C5_branches (m : Endpoint) :
    ("\t\tif (response.ok) \x7b") ∈ methodLines m
    ∧ ("\t\t\t" ++ returnStmt m) ∈ methodLines m
    ∧ ("\t\tconst err = await response.json();") ∈ methodLines m
    ∧ ("\t\tthrow new Error(err.error);") ∈ methodLines m
    ∧ returnStmt m = (match m.Response with
        | none => "return;"
        | some t => "return response.json().then((body) => body as "
            ++ TypescriptTypeName t ++ ");") := by
  refine ⟨by simp [methodLines], by simp [methodLines], by simp [methodLines],
    by simp [methodLines], ?_⟩
  cases hr : m.Response with
  | none => simp only [returnStmt, hr]; decide
  | some t =>
      simp only [returnStmt, hr]
      apply String.ext
      simp [String.data_append, List.append_assoc]

/-! ### Claim C6: query-string assembly -/

/-- C6: the expanded path expression never depends on the query
parameters (queries are never string-concatenated into the path); with
zero query parameters the emitted body assigns the path template literal
directly and constructs no URL builder, and with at least one query
parameter the body constructs a URL builder, issues exactly one ordered
`searchParams.set` per query parameter, and takes the full path from the
builder. -/
theorem query_C6_assembly (m : Endpoint) :
    (getArgsAndPath { m with QueryParams := [] }).2 = (getArgsAndPath m).2
    ∧ fullPathLines m (getArgsAndPath m).2 =
        (match m.QueryParams with
         | [] => ["\t\tconst fullPath = `" ++ (getArgsAndPath m).2 ++ "`;"]
         | _ :: _ =>
            ["\t\tconst u = new URL(`" ++ (getArgsAndPath m).2 ++ "`);"]
            ++ m.QueryParams.map
                (fun p => "\t\tu.searchParams.set(\x27" ++ p.Name ++ "\x27, "
                  ++ p.Name ++ ");")
            ++ ["\t\tconst fullPath = u.toString();"]) := by
  constructor
  · rfl
  · cases hq : m.QueryParams with
    | nil => simp [fullPathLines, hq]
    | cons q qs => simp [fullPathLines, hq]

/-! ### Claim C10: the written content has no tabs -/

theorem replaceAux_singleton (c : Char) (rep : List Char) :
    ∀ (fuel : Nat) (s : List Char), s.length ≤ fuel →
      goReplaceAllAux [c] rep fuel s =
        s.flatMap (fun x => if x = c then rep else [x]) := by
  intro fuel
  induction fuel with
  | zero =>
      intro s hs
      cases s with
      | nil => simp [goReplaceAllAux]
      | cons x xs => simp at hs
  | succ fuel ih =>
      intro s hs
      cases s with
      | nil => simp [goReplaceAllAux]
      | cons x xs =>
          have hxs : xs.length ≤ fuel := by
            simpa [Nat.succ_le_succ_iff] using hs
          by_cases hx : x = c
          · subst hx
            simp [goReplaceAllAux, List.isPrefixOf, ih xs hxs]
          · have hbeq : (c == x) = false := by
              simp [beq_iff_eq]
              exact fun e => hx e.symm
            simp [goReplaceAllAux, List.isPrefixOf, hbeq, hx, ih xs hxs]

theorem not_containsSubList_singleton (c : Char) :
    ∀ l : List Char, c ∉ l → containsSubList [c] l = false := by
  intro l
  induction l with
  | nil => intro _; rfl
  | cons x xs ih =>
      intro h
      have hcx : (c == x) = false := by
        simp [beq_iff_eq]
        exact fun e => h (by simp [e])
      have hxs : c ∉ xs := fun e => h (List.mem_cons_of_mem _ e)
      simp [containsSubList, List.isPrefixOf, hcx, ih hxs]

/-- C10: the written content replaces every tab of the accumulated output
by four spaces, leaves every other character unchanged in order, and
therefore contains no tab character. -/
theorem write_C10_no_tabs (f : tsGenFile) :
    (f.write).data =
      f.result.data.flatMap (fun ch => if ch = '\t' then "    ".data else [ch])
    ∧ containsSub (f.write) "\t" = false := by
  have hdata : (f.write).data =
      f.result.data.flatMap (fun ch => if ch = '\t' then "    ".data else [ch]) := by
    show (goReplaceAll f.result "\t" "    ").data = _
    rw [goReplaceAll, if_neg (by decide : ¬("\t" = ""))]
    exact replaceAux_singleton '\t' "    ".data f.result.data.length f.result.data
      (Nat.le_refl _)
  refine ⟨hdata, ?_⟩
  show containsSubList "\t".data (f.write).data = false
  rw [hdata]
  apply not_containsSubList_singleton
  intro hmem
  rcases List.mem_flatMap.mp hmem with ⟨x, _, hx⟩
  by_cases hxc : x = '\t'
  · rw [if_pos hxc] at hx
    simp at hx
  · rw [if_neg hxc] at hx
    exact hxc (List.mem_singleton.mp hx).symm

/-! ### Claim C4: determinism of generation -/

theorem foldl_create_result :
    ∀ (gs : List EndpointGroup) (f h : tsGenFile), f.api = h.api → f.result = h.result →
      (gs.foldl tsGenFile.createAPIClient f).result
        = (gs.foldl tsGenFile.createAPIClient h).result := by
  intro gs
  induction gs with
  | nil => intro f h _ hr; exact hr
  | cons g rest ih =>
      intro f h ha hr
      apply ih
      · show (f.createAPIClient g).api = (h.createAPIClient g).api
        simpa [tsGenFile.createAPIClient] using ha
      · show (f.createAPIClient g).result = (h.createAPIClient g).result
        simp [tsGenFile.createAPIClient, ha, hr]

/-- C4: generation is deterministic — the output text is a function of the
schema alone; two runs on the same schema (even with different destination
paths) produce identical output text. -/
theorem generateTS_C4_deterministic (a : API) (p q : String) :
    (tsGenFile.generateTS (newTSGenFile p a)).result
      = (tsGenFile.generateTS (newTSGenFile q a)).result := by
  unfold tsGenFile.generateTS
  exact foldl_create_result a.EndpointGroups _ _ rfl rfl

/-! ### Claim C2: signature shape -/

/-- The funcArgs accumulator before trimming: every argument followed by a
comma and a space. -/
def preJoin (args : List String) : String :=
  strJoin (args.map (fun a => a ++ ", "))

/-- The right-trim half of the Go strings.Trim, over character lists. -/
def rightTrimData (l : List Char) : List Char :=
  (goTrimLeft cutChars l.reverse).reverse

/-- The Go strings.Trim with the comma-space cutset, over character lists. -/
def trimData (l : List Char) : List Char :=
  rightTrimData (goTrimLeft cutChars l)

theorem goTrim_eq_trimData (s : String) : (goTrim s ", ").data = trimData s.data := rfl

theorem preJoin_cons (a : String) (l : List String) :
    preJoin (a :: l) = (a ++ ", ") ++ preJoin l := rfl

theorem saneArg_head {s : String} (h : saneArg s = true) :
    ∃ c cs, s.data = c :: cs ∧ c ∉ cutChars := by
  unfold saneArg at h
  cases hd : s.data with
  | nil => rw [hd] at h; simp at h
  | cons c cs =>
      cases hr : s.data.reverse with
      | nil =>
          rw [List.reverse_eq_nil_iff] at hr
          rw [hd] at hr
          cases hr
      | cons d ds =>
          rw [hd] at h hr
          rw [hr] at h
          simp only [Bool.and_eq_true, Bool.not_eq_true'] at h
          refine ⟨c, cs, rfl, ?_⟩
          have h1 := h.1
          simp at h1
          exact h1

theorem saneArg_last {s : String} (h : saneArg s = true) :
    ∃ d ds, s.data.reverse = d :: ds ∧ d ∉ cutChars := by
  unfold saneArg at h
  cases hd : s.data with
  | nil => rw [hd] at h; simp at h
  | cons c cs =>
      cases hr : s.data.reverse with
      | nil =>
          rw [List.reverse_eq_nil_iff] at hr
          rw [hd] at hr
          cases hr
      | cons d ds =>
          rw [hd] at h hr
          rw [hr] at h
          simp only [Bool.and_eq_true, Bool.not_eq_true'] at h
          refine ⟨d, ds, hr, ?_⟩
          have h2 := h.2
          simp at h2
          exact h2

theorem goTrimLeft_not_mem {cut : List Char} {c : Char} (hc : c ∉ cut) (l : List Char) :
    goTrimLeft cut (c :: l) = c :: l := by
  simp [goTrimLeft, hc]

theorem goTrimLeft_mem {cut : List Char} {c : Char} (hc : c ∈ cut) (l : List Char) :
    goTrimLeft cut (c :: l) = goTrimLeft cut l := by
  simp [goTrimLeft, hc]

theorem goTrimLeft_append {cut : List Char} :
    ∀ (l r res : List Char), goTrimLeft cut l = res → res ≠ [] →
      goTrimLeft cut (l ++ r) = res ++ r := by
  intro l
  induction l with
  | nil =>
      intro r res h hne
      simp [goTrimLeft] at h
      exact absurd h hne
  | cons x xs ih =>
      intro r res h hne
      by_cases hx : x ∈ cut
      · rw [goTrimLeft_mem hx] at h
        rw [List.cons_append, goTrimLeft_mem hx]
        exact ih r res h hne
      · rw [goTrimLeft_not_mem hx] at h
        rw [List.cons_append, goTrimLeft_not_mem hx, ← h]
        simp

theorem rightTrimData_append (X l J : List Char) (hJ : J ≠ [])
    (h : rightTrimData l = J) : rightTrimData (X ++ l) = X ++ J := by
  unfold rightTrimData at h ⊢
  have h' : goTrimLeft cutChars l.reverse = J.reverse := by
    rw [← h, List.reverse_reverse]
  have hJr : J.reverse ≠ [] := by simpa using hJ
  rw [List.reverse_append, goTrimLeft_append _ _ _ h' hJr, List.reverse_append,
    List.reverse_reverse]
  simp

theorem rightTrimData_arg_sep (a : String) (d : Char) (ds : List Char)
    (hrd : a.data.reverse = d :: ds) (hd : d ∉ cutChars) :
    rightTrimData (a.data ++ [',', ' ']) = a.data := by
  unfold rightTrimData
  rw [List.reverse_append]
  show (goTrimLeft cutChars (' ' :: [','] ++ a.data.reverse)).reverse = a.data
  rw [List.cons_append, goTrimLeft_mem (by decide), List.singleton_append,
    goTrimLeft_mem (by decide), hrd, goTrimLeft_not_mem hd, ← hrd,
    List.reverse_reverse]

theorem joinArgs_cons_data (b : String) (rest : List String) :
    ∃ tail, (joinArgs (b :: rest)).data = b.data ++ tail := by
  cases rest with
  | nil => exact ⟨[], by simp [joinArgs]⟩
  | cons c cs =>
      exact ⟨',' :: ' ' :: (joinArgs (c :: cs)).data,
        by simp [joinArgs, String.data_append, List.append_assoc]⟩

theorem trimData_preJoin :
    ∀ args : List String, (∀ a ∈ args, saneArg a = true) →
      trimData (preJoin args).data = (joinArgs args).data := by
  intro args
  induction args with
  | nil => intro _; decide
  | cons a tl ih =>
      intro h
      obtain ⟨c, cs, hcd, hc⟩ := saneArg_head (h a (List.mem_cons_self a tl))
      have hdata : (preJoin (a :: tl)).data = c :: (cs ++ ([',', ' '] ++ (preJoin tl).data)) := by
        rw [preJoin_cons, String.data_append, String.data_append, hcd]
        simp [List.append_assoc]
      have hleft : goTrimLeft cutChars (preJoin (a :: tl)).data = (preJoin (a :: tl)).data := by
        rw [hdata]
        exact goTrimLeft_not_mem hc _
      cases tl with
      | nil =>
          obtain ⟨d, ds, hrd, hdn⟩ := saneArg_last (h a (List.mem_cons_self a []))
          show trimData (preJoin [a]).data = (joinArgs [a]).data
          unfold trimData
          rw [hleft]
          have hone : (preJoin [a]).data = a.data ++ [',', ' '] := by
            rw [preJoin_cons, String.data_append, String.data_append]
            simp [preJoin, strJoin]
          rw [hone, rightTrimData_arg_sep a d ds hrd hdn]
          rfl
      | cons b rest =>
          have hsane' : ∀ x ∈ b :: rest, saneArg x = true :=
            fun x hx => h x (List.mem_cons_of_mem a hx)
          have ih' := ih hsane'
          obtain ⟨c', cs', hcd', hc'⟩ := saneArg_head (hsane' b (List.mem_cons_self b rest))
          have hdata' : (preJoin (b :: rest)).data
              = c' :: (cs' ++ ([',', ' '] ++ (preJoin rest).data)) := by
            rw [preJoin_cons, String.data_append, String.data_append, hcd']
            simp [List.append_assoc]
          have hleft' : goTrimLeft cutChars (preJoin (b :: rest)).data
              = (preJoin (b :: rest)).data := by
            rw [hdata']
            exact goTrimLeft_not_mem hc' _
          have hright' : rightTrimData (preJoin (b :: rest)).data
              = (joinArgs (b :: rest)).data := by
            have := ih'
            unfold trimData at this
            rwa [hleft'] at this
          obtain ⟨tail, htail⟩ := joinArgs_cons_data b rest
          have hJne : (joinArgs (b :: rest)).data ≠ [] := by
            rw [htail, hcd']
            simp
          show trimData (preJoin (a :: b :: rest)).data = (joinArgs (a :: b :: rest)).data
          unfold trimData
          rw [hleft]
          have hsplit : (preJoin (a :: b :: rest)).data
              = (a.data ++ [',', ' ']) ++ (preJoin (b :: rest)).data := by
            rw [preJoin_cons, String.data_append, String.data_append]
          rw [hsplit,
            rightTrimData_append _ _ _ hJne hright']
          rfl

theorem getArgsAndPath_funcArgs (m : Endpoint) :
    (getArgsAndPath m).1 = goTrim (preJoin (argList m)) ", " := by
  show goTrim
      (m.QueryParams.foldl
        (fun acc p => acc ++ p.Name ++ ": "
          ++ TypescriptTypeName (p.namedType m "query") ++ ", ")
        (m.PathParams.foldl
          (fun acc p => acc ++ p.Name ++ ": "
            ++ TypescriptTypeName (p.namedType m "path") ++ ", ")
          (match m.Request with
           | some t => "request: " ++ TypescriptTypeName t ++ ", "
           | none => ""))) ", "
    = goTrim (preJoin (argList m)) ", "
  congr 1
  have hfun1 : (fun (acc : String) (p : Parameter) => acc ++ p.Name ++ ": "
        ++ TypescriptTypeName (p.namedType m "path") ++ ", ")
      = (fun acc p => acc
          ++ (p.Name ++ ": " ++ TypescriptTypeName (p.namedType m "path") ++ ", ")) := by
    funext acc p
    simp [String.append_assoc]
  have hfun2 : (fun (acc : String) (p : Parameter) => acc ++ p.Name ++ ": "
        ++ TypescriptTypeName (p.namedType m "query") ++ ", ")
      = (fun acc p => acc
          ++ (p.Name ++ ": " ++ TypescriptTypeName (p.namedType m "query") ++ ", ")) := by
    funext acc p
    simp [String.append_assoc]
  rw [hfun1, hfun2, foldl_append_str, foldl_append_str]
  unfold preJoin argList
  cases m.Request with
  | none =>
      simp [strJoin_append, List.map_map, strJoin, String.append_assoc,
        String.append_empty, String.empty_append, Function.comp_def]
  | some t =>
      simp [strJoin_append, List.map_map, strJoin, String.append_assoc,
        String.append_empty, String.empty_append, Function.comp_def]

/-- C2: for every endpoint, the emitted signature is exactly the
comma-separated parameter list with the request-body parameter first (when
present), then the path parameters in list order, then the query
parameters in declaration order, and has exactly N+M (+1 when a Request
type is present) parameters — provided every rendered argument is a sane
identifier rendering (nonempty, not starting or ending in a comma or
space). -/
theorem signature_C2_shape (m : Endpoint)
    (h : ∀ a ∈ argList m, saneArg a = true) :
    (getArgsAndPath m).1 = joinArgs (argList m)
    ∧ (argList m).length
        = (match m.Request with | some _ => 1 | none => 0)
          + m.PathParams.length + m.QueryParams.length := by
  constructor
  · rw [getArgsAndPath_funcArgs]
    apply String.ext
    rw [goTrim_eq_trimData]
    exact trimData_preJoin (argList m) h
  · cases hr : m.Request <;>
      simp [argList, hr, List.length_append, List.length_map, Nat.add_comm,
        Nat.add_assoc, Nat.add_left_comm]

/-- C2 witness: on the concrete endpoint `exFull` (request body, one path
parameter, one query parameter) the emitted signature is the three-element
ordered parameter list. -/
theorem signature_C2_witness :
    (getArgsAndPath exFull).1 = "request: Req, id: string, cursor: Cursor"
    ∧ (argList exFull).length = 3 := by
  have h := signature_C2_shape exFull (by decide)
  exact ⟨h.1.trans (by decide), h.2.trans (by decide)⟩

end Apigen
